import Mathlib

/-!
Verification of the opentui core against its specification.

This file shallowly embeds the parts of the repository that the checked
claims are about:

* `packages/core/src/lib/parse.mouse.ts` — the mouse input parser
  (`MouseParser`): SGR (`ESC [ < b ; x ; y M|m`) and X10 (`ESC [ M B X Y`)
  sequence parsing, button/scroll/motion/modifier decoding and the
  pressed-buttons set that disambiguates move from drag.
* `packages/core/src/lib/detect-links` (provided as an unnamed source file) —
  the `detectLinks` pass that attaches URL links to text chunks.
* `packages/core/src/renderables/LineNumberRenderable.ts` — the
  `DiffRenderable.requestRebuild` microtask coalescing and the
  `CodeRenderable.startHighlight` error fallback, embedded as explicit
  state-transition functions.
* The presenter's focus-restore behaviour, which is exercised by
  `renderer.focus-restore.test.ts`; the presenter implementation itself is
  not among the provided sources, so it is modelled from the spec.

Strings are embedded as `List Char` (the parser operates on an already
UTF-8-decoded JavaScript string, character by character); JavaScript
numbers that can go negative are embedded as `Int`, with 32-bit bitwise
semantics made explicit where the source applies `&` to a possibly
negative value.
-/

/-! ## Mouse parser: data model (parse.mouse.ts lines 1-20) -/

inductive MouseEventType
  | down | up | move | drag | dragEnd | drop | over | out | scroll
  deriving DecidableEq, Repr

inductive ScrollDirection
  | up | down | left | right
  deriving DecidableEq, Repr

structure ScrollInfo where
  direction : ScrollDirection
  delta : Nat
  deriving DecidableEq, Repr

structure MouseModifiers where
  shift : Bool
  alt : Bool
  ctrl : Bool
  deriving DecidableEq, Repr

structure RawMouseEvent where
  type : MouseEventType
  button : Int
  x : Int
  y : Int
  modifiers : MouseModifiers
  scroll : Option ScrollInfo
  deriving DecidableEq, Repr

/-- `MouseParser.SCROLL_DIRECTIONS` (lines 25-30): the record mapping the
low two button bits of a scroll event to a direction. -/
def SCROLL_DIRECTIONS (n : Nat) : Option ScrollDirection :=
  match n with
  | 0 => some .up
  | 1 => some .down
  | 2 => some .left
  | 3 => some .right
  | _ => none

/-- `this.mouseButtonsPressed.add(button)`: a JavaScript `Set` keeps
insertion order and ignores duplicates. -/
def addPressed (b : Nat) (pressed : List Nat) : List Nat :=
  if b ∈ pressed then pressed else pressed ++ [b]

/-- JavaScript 32-bit bitwise AND of a (possibly negative) integer with a
small non-negative mask: the integer is reduced to its unsigned 32-bit
representation first. -/
def jsAnd (a : Int) (m : Nat) : Nat :=
  ((a % 4294967296).toNat) &&& m

/-! ## `MouseParser.decodeSgrEvent` (lines 142-191) -/

/-- `decodeSgrEvent(rawButtonCode, wireX, wireY, pressRelease)`; `isPress`
is `pressRelease === "M"`. The pressed-buttons set is threaded explicitly:
the result pairs the produced event with the updated set. -/
def decodeSgrEvent (pressed : List Nat) (rawButtonCode wireX wireY : Nat)
    (isPress : Bool) : RawMouseEvent × List Nat :=
  let button := rawButtonCode &&& 3
  let isScroll := rawButtonCode &&& 64 != 0
  let scrollDirection := if isScroll then SCROLL_DIRECTIONS button else none
  let isMotion := rawButtonCode &&& 32 != 0
  let modifiers : MouseModifiers :=
    { shift := rawButtonCode &&& 4 != 0
      alt := rawButtonCode &&& 8 != 0
      ctrl := rawButtonCode &&& 16 != 0 }
  let retButton : Int := if button = 3 then 0 else (button : Int)
  let ex : Int := (wireX : Int) - 1
  let ey : Int := (wireY : Int) - 1
  if isScroll && isPress then
    ({ type := .scroll, button := retButton, x := ex, y := ey,
       modifiers := modifiers,
       scroll := some { direction := scrollDirection.getD .up, delta := 1 } },
     pressed)
  else if isMotion then
    let isDragging := 0 < pressed.length
    let t : MouseEventType :=
      if button = 3 then .move else if isDragging then .drag else .move
    ({ type := t, button := retButton, x := ex, y := ey,
       modifiers := modifiers, scroll := none }, pressed)
  else
    let t : MouseEventType := if isPress then .down else .up
    let pressed2 : List Nat :=
      if t = .down ∧ button ≠ 3 then addPressed button pressed
      else if t = .up then [] else pressed
    ({ type := t, button := retButton, x := ex, y := ey,
       modifiers := modifiers, scroll := none }, pressed2)

/-! ## `MouseParser.decodeBasicEvent` (lines 193-232) -/

/-- `decodeBasicEvent(buttonByte, x, y)`. The button byte may be negative
in JavaScript (`charCodeAt - 32`), so bitwise tests go through `jsAnd`.
The pressed-buttons set is not consulted or modified here. -/
def decodeBasicEvent (buttonByte x y : Int) : RawMouseEvent :=
  let button := jsAnd buttonByte 3
  let isScroll := jsAnd buttonByte 64 != 0
  let isMotion := jsAnd buttonByte 32 != 0
  let scrollDirection := if isScroll then SCROLL_DIRECTIONS button else none
  let modifiers : MouseModifiers :=
    { shift := jsAnd buttonByte 4 != 0
      alt := jsAnd buttonByte 8 != 0
      ctrl := jsAnd buttonByte 16 != 0 }
  if isScroll then
    { type := .scroll, button := 0, x := x, y := y, modifiers := modifiers,
      scroll := some { direction := scrollDirection.getD .up, delta := 1 } }
  else if isMotion then
    { type := .move, button := if button = 3 then -1 else (button : Int),
      x := x, y := y, modifiers := modifiers, scroll := none }
  else
    { type := if button = 3 then .up else .down,
      button := if button = 3 then 0 else (button : Int),
      x := x, y := y, modifiers := modifiers, scroll := none }

/-! ## `MouseParser.parseSgrSequence` (lines 85-125)

The source walks the string with an index, three accumulator slots
`values[0..2]`, a `part` cursor and a `hasDigit` flag.  The walk is the
recursion `sgrLoop` below over the characters after `ESC [ <`; `consumed`
counts the characters eaten so far (the source's `index - offset - 3`). -/

def getPart : Nat × Nat × Nat → Nat → Nat
  | (a, _, _), 0 => a
  | (_, b, _), 1 => b
  | (_, _, c), _ => c

def setPart : Nat × Nat × Nat → Nat → Nat → Nat × Nat × Nat
  | (_, b, c), 0, v => (v, b, c)
  | (a, _, c), 1, v => (a, v, c)
  | (a, b, _), _, v => (a, b, v)

/-- The character-consuming loop of `parseSgrSequence`.  On success it
returns `(values[0], values[1], values[2], finalChar = 'M', consumed)`
where `consumed` includes the final byte. -/
def sgrLoop : List Char → Nat × Nat × Nat → Nat → Bool → Nat →
    Option (Nat × Nat × Nat × Bool × Nat)
  | [], _, _, _, _ => none
  | c :: rest, vals, part, hasDigit, consumed =>
    if 48 ≤ c.toNat ∧ c.toNat ≤ 57 then
      sgrLoop rest (setPart vals part (getPart vals part * 10 + (c.toNat - 48)))
        part true (consumed + 1)
    else if c = ';' then
      if hasDigit = false ∨ 2 ≤ part then none
      else sgrLoop rest vals (part + 1) false (consumed + 1)
    else if c = 'M' ∨ c = 'm' then
      if hasDigit = true ∧ part = 2 then
        some (vals.1, vals.2.1, vals.2.2, c = 'M', consumed + 1)
      else none
    else none

/-! ## `MouseParser.parseMouseSequenceAt` (lines 70-83) together with
`parseSgrSequence` / `parseBasicSequence` (lines 85-140)

The input is the suffix of the decoded string starting at `offset`; on
success the result carries the event, the updated pressed set and the
number of consumed characters. -/

def parseMouseSequenceAt (pressed : List Nat) (s : List Char) :
    Option (RawMouseEvent × List Nat × Nat) :=
  match s with
  | c0 :: c1 :: rest =>
    if c0 = '\x1b' ∧ c1 = '[' then
      match rest with
      | [] => none
      | c2 :: rest2 =>
        if c2 = '<' then
          match sgrLoop rest2 (0, 0, 0) 0 false 0 with
          | some (b, x, y, isPress, consumed) =>
            let r := decodeSgrEvent pressed b x y isPress
            some (r.1, r.2, consumed + 3)
          | none => none
        else if c2 = 'M' then
          match rest2 with
          | cb :: cx :: cy :: _ =>
            some (decodeBasicEvent ((cb.toNat : Int) - 32)
                    ((cx.toNat : Int) - 33) ((cy.toNat : Int) - 33),
                  pressed, 6)
          | _ => none
        else none
    else none
  | _ => none

/-! ## `MouseParser.parseAllMouseEvents` (lines 50-68)

The source loop runs `while offset < str.length`, stops at the first
non-mouse sequence, and otherwise advances `offset` by the consumed count.
The loop is embedded with an explicit fuel argument (structural recursion);
`parseAllGo_fuel_irrelevant` below proves that any fuel of at least
`s.length + 1` yields the same trace, i.e. the fuel never runs out and the
loop terminates.  The third result component instruments the total number
of consumed characters (the source's final `offset`). -/

def parseAllGo : Nat → List Nat → List Char → List RawMouseEvent × List Nat × Nat
  | 0, pressed, _ => ([], pressed, 0)
  | fuel + 1, pressed, s =>
    match parseMouseSequenceAt pressed s with
    | none => ([], pressed, 0)
    | some (ev, p2, c) =>
      let r := parseAllGo fuel p2 (s.drop c)
      (ev :: r.1, r.2.1, c + r.2.2)

def parseAllMouseEvents (pressed : List Nat) (s : List Char) :
    List RawMouseEvent × List Nat × Nat :=
  parseAllGo (s.length + 1) pressed s

/-! ## Decimal digit strings

`sgrSeq` below builds the full wire form `ESC [ < b ; x ; y F` of an SGR
mouse sequence for arbitrary numeric parameters, so that claims about
"every SGR mouse sequence" can be stated over all of `Nat`. -/

def digitChar (d : Nat) : Char :=
  match d with
  | 0 => '0' | 1 => '1' | 2 => '2' | 3 => '3' | 4 => '4'
  | 5 => '5' | 6 => '6' | 7 => '7' | 8 => '8' | 9 => '9'
  | _ => '0'

def digitsAux : Nat → List Char → List Char
  | 0, acc => acc
  | n + 1, acc => digitsAux ((n + 1) / 10) (digitChar ((n + 1) % 10) :: acc)
  termination_by n => n
  decreasing_by exact Nat.div_lt_self (Nat.succ_pos n) (by decide)

/-- Number of decimal digits produced by `digitsAux` (0 for 0). -/
def digitsLen : Nat → Nat
  | 0 => 0
  | n + 1 => digitsLen ((n + 1) / 10) + 1
  termination_by n => n
  decreasing_by exact Nat.div_lt_self (Nat.succ_pos n) (by decide)

/-- The decimal representation of `n`, most significant digit first. -/
def natDigits (n : Nat) : List Char :=
  if n = 0 then ['0'] else digitsAux n []

/-- The value accumulated by the digit branch of `parseSgrSequence` over a
run of digit characters, starting from `v`. -/
def digitsVal : List Char → Nat → Nat
  | [], v => v
  | c :: cs, v => digitsVal cs (v * 10 + (c.toNat - 48))

/-- The full wire form of an SGR mouse sequence `ESC [ < b ; x ; y F`. -/
def sgrSeq (b x y : Nat) (f : Char) : List Char :=
  '\x1b' :: '[' :: '<' ::
    (natDigits b ++ ';' :: (natDigits x ++ ';' :: (natDigits y ++ [f])))

/-! ## `detectLinks` (unnamed source file, `detect-links`)

`TextChunk.text` and the content are embedded as `List Char`; the chunk's
optional `link` field holds the URL.  The source mutates `chunk.link` in
place and returns the same array; the embedding returns the updated list. -/

structure TextChunk where
  text : List Char
  link : Option (List Char)
  deriving DecidableEq, Repr

structure SimpleHighlight where
  start : Nat
  stop : Nat
  group : String
  deriving DecidableEq, Repr

structure LinkRange where
  start : Nat
  stop : Nat
  url : List Char
  deriving DecidableEq, Repr

def URL_SCOPES : List String := ["markup.link.url", "string.special.url"]

/-- The inner backwards scan (lines 22-29): from the highlight before the
URL highlight, walk towards the front; a `markup.link.label` highlight
contributes a range and stops; a group outside `markup.link` stops without
contributing.  `prevRev` is the list of earlier highlights, nearest
first. -/
def findLabelRange : List SimpleHighlight → List Char → Option LinkRange
  | [], _ => none
  | h :: rest, url =>
    if h.group = "markup.link.label" then
      some { start := h.start, stop := h.stop, url := url }
    else if !(h.group.startsWith "markup.link") then none
    else findLabelRange rest url

/-- The ranges-building loop (lines 15-30). -/
def buildRanges (content : List Char) :
    List SimpleHighlight → List SimpleHighlight → List LinkRange
  | _, [] => []
  | prevRev, h :: rest =>
    if h.group ∈ URL_SCOPES then
      let url := (content.drop h.start).take (h.stop - h.start)
      ({ start := h.start, stop := h.stop, url := url } ::
        (findLabelRange prevRev url).toList)
        ++ buildRanges content (h :: prevRev) rest
    else buildRanges content (h :: prevRev) rest

/-- `content.indexOf(pat, pos)`: the first index `≥ pos` where `pat`
occurs in `content`, or `none` (the source's `-1`). -/
def indexOfFrom (content pat : List Char) (pos : Nat) : Option Nat :=
  go (content.drop pos) pos
where
  go : List Char → Nat → Option Nat
    | s, i =>
      if pat.isPrefixOf s then some i
      else
        match s with
        | [] => none
        | _ :: rest => go rest (i + 1)

/-- The chunk loop (lines 38-53): chunks of length ≤ 1 are skipped; for the
others the chunk text is located in the content from `contentPos` on, the
first overlapping range (if any) sets the chunk's link, and `contentPos`
advances past the located occurrence. -/
def applyLinks (content : List Char) (ranges : List LinkRange) :
    List TextChunk → Nat → List TextChunk
  | [], _ => []
  | chunk :: rest, contentPos =>
    if chunk.text.length ≤ 1 then
      chunk :: applyLinks content ranges rest contentPos
    else
      match indexOfFrom content chunk.text contentPos with
      | none => chunk :: applyLinks content ranges rest contentPos
      | some idx =>
        let matched := ranges.find? fun r =>
          decide (idx < r.stop) && decide (r.start < idx + chunk.text.length)
        let chunk2 := match matched with
          | some r => { chunk with link := some r.url }
          | none => chunk
        chunk2 :: applyLinks content ranges rest (idx + chunk.text.length)

/-- `detectLinks(chunks, context)` (lines 6-56). -/
def detectLinks (chunks : List TextChunk) (content : List Char)
    (highlights : List SimpleHighlight) : List TextChunk :=
  let ranges := buildRanges content [] highlights
  if ranges.length = 0 then chunks
  else applyLinks content ranges chunks 0

/-! ## Presenter focus-restore (spec-modelled)

The presenter/renderer implementation that consumes focus reporting
sequences is not among the provided sources — only its test suite
(`renderer.focus-restore.test.ts`) and an example are.  The behaviour is
modelled from the spec below. -/

inductive FocusToken
  | focusIn | focusOut
  deriving DecidableEq, Repr

inductive PresenterAction
  | restoreModes | focusEvent | blurEvent
  deriving DecidableEq, Repr

/-- Modelled from the spec: the presenter's reaction to a parsed focus
token (the implementation of the renderer handling `ESC [ I` / `ESC [ O`
is missing from the sources).  Per the spec, on focus-in the presenter
re-asserts the mouse/focus/bracketed-paste enable modes
(`restoreTerminalModes`, one re-assertion) and then emits the `focus`
event on the renderer bus; on focus-out it only emits `blur`. -/
def processFocusToken : FocusToken → List PresenterAction
  | .focusIn => [.restoreModes, .focusEvent]
  | .focusOut => [.blurEvent]

/-- Modelled from the spec: processing a stream of focus tokens emits the
per-token actions in input order. -/
def processFocusStream : List FocusToken → List PresenterAction
  | [] => []
  | t :: ts => processFocusToken t ++ processFocusStream ts

/-! ## `DiffRenderable.requestRebuild` (LineNumberRenderable.ts lines 873-894)

The `queueMicrotask` coalescing is embedded as a state machine: the state
carries the `pendingRebuild` flag, the number of queued (identical)
microtask closures, and counters for executed `buildView` /
`requestRender` calls. -/

structure DiffRebuildState where
  pendingRebuild : Bool
  isDestroyed : Bool
  queuedTasks : Nat
  rebuilds : Nat
  renders : Nat
  deriving DecidableEq, Repr

/-- `requestRebuild()`: a no-op while a rebuild is already pending;
otherwise sets the flag and queues one microtask. -/
def requestRebuild (s : DiffRebuildState) : DiffRebuildState :=
  if s.pendingRebuild then s
  else { s with pendingRebuild := true, queuedTasks := s.queuedTasks + 1 }

/-- Running one queued microtask closure: if the renderable is alive and a
rebuild is still pending, clear the flag, run `buildView()` and
`requestRender()`; otherwise do nothing. -/
def runRebuildTask (s : DiffRebuildState) : DiffRebuildState :=
  if s.queuedTasks = 0 then s
  else
    let s2 := { s with queuedTasks := s.queuedTasks - 1 }
    if !s2.isDestroyed && s2.pendingRebuild then
      { s2 with pendingRebuild := false, rebuilds := s2.rebuilds + 1,
                renders := s2.renders + 1 }
    else s2

/-! ## `CodeRenderable.startHighlight` error fallback
(LineNumberRenderable.ts lines 2066-2155)

The catch branch of the asynchronous highlight is embedded as a state
transition.  `snapshotId` and `content` are the values captured at the
start of `startHighlight`; the current state carries the live
`_highlightSnapshotId` (bumped by any newer request). -/

inductive TextBufferContent
  | plain (content : List Char)
  | styled (chunkCount : Nat)
  deriving DecidableEq, Repr

structure CodeHighlightState where
  highlightSnapshotId : Nat
  textBuffer : TextBufferContent
  shouldRenderTextBuffer : Bool
  isHighlighting : Bool
  highlightsDirty : Bool
  renderRequests : Nat
  isDestroyed : Bool
  deriving DecidableEq, Repr

/-- The `catch` branch of `startHighlight` (lines 2141-2154): a superseded
snapshot returns immediately; a destroyed renderable returns after the
warning; otherwise the text buffer falls back to the plain captured
content, the renderable is marked renderable, the highlighting flags are
cleared and a render is requested. -/
def startHighlightOnError (s : CodeHighlightState) (snapshotId : Nat)
    (content : List Char) : CodeHighlightState :=
  if snapshotId ≠ s.highlightSnapshotId then s
  else if s.isDestroyed then s
  else
    { s with
      textBuffer := .plain content,
      shouldRenderTextBuffer := true,
      isHighlighting := false,
      highlightsDirty := false,
      renderRequests := s.renderRequests + 1 }

theorem sgrLoop_bound : ∀ (l : List Char) vals part hd n b x y ip c,
    sgrLoop l vals part hd n = some (b, x, y, ip, c) → n < c ∧ c ≤ n + l.length := by
  intro l
  induction l with
  | nil => intro vals part hd n b x y ip c h; simp [sgrLoop] at h
  | cons ch rest ih =>
    intro vals part hd n b x y ip c h
    simp only [sgrLoop] at h
    split at h
    · have := ih _ _ _ _ _ _ _ _ _ h
      simp only [List.length_cons]
      omega
    · split at h
      · split at h
        · simp at h
        · have := ih _ _ _ _ _ _ _ _ _ h
          simp only [List.length_cons]
          omega
      · split at h
        · split at h
          · simp only [Option.some.injEq, Prod.mk.injEq] at h
            simp only [List.length_cons]
            omega
          · simp at h
        · simp at h

theorem parseMouseSequenceAt_pos (p : List Nat) (s : List Char)
    (e : RawMouseEvent) (p2 : List Nat) (c : Nat)
    (h : parseMouseSequenceAt p s = some (e, p2, c)) :
    1 ≤ c ∧ c ≤ s.length := by
  match s with
  | [] => simp [parseMouseSequenceAt] at h
  | [c0] => simp [parseMouseSequenceAt] at h
  | [c0, c1] => simp [parseMouseSequenceAt] at h
  | c0 :: c1 :: c2 :: rest2 =>
    simp only [parseMouseSequenceAt] at h
    split at h
    · split at h
      · split at h
        · rename_i b x y ip consumed heq
          have hb := sgrLoop_bound rest2 (0, 0, 0) 0 false 0 b x y ip consumed heq
          simp only [Option.some.injEq, Prod.mk.injEq] at h
          simp only [List.length_cons]
          omega
        · simp at h
      · split at h
        · split at h
          · simp only [Option.some.injEq, Prod.mk.injEq] at h
            simp only [List.length_cons]
            omega
          · simp at h
        · simp at h
    · simp at h

theorem parseAllGo_congr : ∀ (n : Nat) (s : List Char) (p : List Nat) (f1 f2 : Nat),
    s.length ≤ n → s.length < f1 → s.length < f2 →
    parseAllGo f1 p s = parseAllGo f2 p s := by
  intro n
  induction n with
  | zero =>
    intro s p f1 f2 hn h1 h2
    match s, hn with
    | [], _ =>
      match f1, h1 with
      | g1 + 1, _ =>
        match f2, h2 with
        | g2 + 1, _ => rfl
  | succ n ih =>
    intro s p f1 f2 hn h1 h2
    match f1, h1 with
    | g1 + 1, _ =>
    match f2, h2 with
    | g2 + 1, _ =>
    cases hp : parseMouseSequenceAt p s with
    | none => simp only [parseAllGo, hp]
    | some r =>
      obtain ⟨ev, p2, c⟩ := r
      have hpos := parseMouseSequenceAt_pos p s ev p2 c hp
      have hdl : (s.drop c).length = s.length - c := List.length_drop _ _
      have hrec : parseAllGo g1 p2 (s.drop c) = parseAllGo g2 p2 (s.drop c) :=
        ih (s.drop c) p2 g1 g2 (by omega) (by omega) (by omega)
      simp only [parseAllGo, hp, hrec]

theorem parseAllGo_bounds : ∀ (fuel : Nat) (p : List Nat) (s : List Char),
    (parseAllGo fuel p s).2.2 ≤ s.length ∧
    (parseAllGo fuel p s).1.length ≤ (parseAllGo fuel p s).2.2 := by
  intro fuel
  induction fuel with
  | zero => intro p s; simp [parseAllGo]
  | succ n ih =>
    intro p s
    cases hp : parseMouseSequenceAt p s with
    | none => simp [parseAllGo, hp]
    | some r =>
      obtain ⟨ev, p2, c⟩ := r
      have hpos := parseMouseSequenceAt_pos p s ev p2 c hp
      have hrec := ih p2 (s.drop c)
      have hdl : (s.drop c).length = s.length - c := List.length_drop _ _
      simp only [parseAllGo, hp, List.length_cons]
      constructor <;> omega

theorem setPart_getPart (vals : Nat × Nat × Nat) (p : Nat) :
    setPart vals p (getPart vals p) = vals := by
  obtain ⟨a, b, c⟩ := vals
  match p with
  | 0 => rfl
  | 1 => rfl
  | n + 2 => rfl

theorem getPart_setPart (vals : Nat × Nat × Nat) (p v : Nat) :
    getPart (setPart vals p v) p = v := by
  obtain ⟨a, b, c⟩ := vals
  match p with
  | 0 => rfl
  | 1 => rfl
  | n + 2 => rfl

theorem setPart_setPart (vals : Nat × Nat × Nat) (p v w : Nat) :
    setPart (setPart vals p v) p w = setPart vals p w := by
  obtain ⟨a, b, c⟩ := vals
  match p with
  | 0 => rfl
  | 1 => rfl
  | n + 2 => rfl

theorem digitChar_toNat (d : Nat) (hd : d < 10) : (digitChar d).toNat = 48 + d := by
  interval_cases d <;> rfl

theorem digitChar_isDigit (d : Nat) (hd : d < 10) :
    48 ≤ (digitChar d).toNat ∧ (digitChar d).toNat ≤ 57 := by
  rw [digitChar_toNat d hd]
  omega

theorem digitsVal_digitsAux (n : Nat) : ∀ (acc : List Char) (v : Nat),
    digitsVal (digitsAux n acc) v = digitsVal acc (v * 10 ^ digitsLen n + n) := by
  induction n using Nat.strong_induction_on with
  | _ n ih =>
    match n with
    | 0 =>
      intro acc v
      simp [digitsAux, digitsLen]
    | m + 1 =>
      intro acc v
      rw [digitsAux]
      rw [ih ((m + 1) / 10) (by omega)]
      have h10 : (m + 1) % 10 < 10 := Nat.mod_lt _ (by decide)
      simp only [digitsVal, digitChar_toNat _ h10]
      have hlen : digitsLen (m + 1) = digitsLen ((m + 1) / 10) + 1 := by
        rw [digitsLen]
      rw [hlen, pow_succ]
      congr 1
      have hdm : (m + 1) / 10 * 10 + (m + 1) % 10 = m + 1 := by omega
      ring_nf
      omega

theorem digitsAux_all_digits (n : Nat) : ∀ (acc : List Char),
    (∀ ch ∈ acc, 48 ≤ ch.toNat ∧ ch.toNat ≤ 57) →
    ∀ ch ∈ digitsAux n acc, 48 ≤ ch.toNat ∧ ch.toNat ≤ 57 := by
  induction n using Nat.strong_induction_on with
  | _ n ih =>
    match n with
    | 0 => intro acc hacc; simpa [digitsAux] using hacc
    | m + 1 =>
      intro acc hacc
      rw [digitsAux]
      refine ih ((m + 1) / 10) (by omega) _ ?_
      intro ch hch
      rcases List.mem_cons.mp hch with h | h
      · subst h; exact digitChar_isDigit _ (Nat.mod_lt _ (by decide))
      · exact hacc ch h

theorem digitsAux_length (n : Nat) : ∀ (acc : List Char),
    (digitsAux n acc).length = digitsLen n + acc.length := by
  induction n using Nat.strong_induction_on with
  | _ n ih =>
    match n with
    | 0 => intro acc; simp [digitsAux, digitsLen]
    | m + 1 =>
      intro acc
      rw [digitsAux, ih ((m + 1) / 10) (by omega), digitsLen]
      simp only [List.length_cons]
      omega

theorem natDigits_val (n : Nat) : digitsVal (natDigits n) 0 = n := by
  by_cases h : n = 0
  · subst h; decide
  · rw [natDigits, if_neg h, digitsVal_digitsAux]
    simp [digitsVal]

theorem natDigits_all_digits (n : Nat) :
    ∀ ch ∈ natDigits n, 48 ≤ ch.toNat ∧ ch.toNat ≤ 57 := by
  by_cases h : n = 0
  · subst h; intro ch hch; simp [natDigits] at hch; subst hch; decide
  · rw [natDigits, if_neg h]
    exact digitsAux_all_digits n [] (by intro ch hch; simp at hch)

theorem natDigits_ne_nil (n : Nat) : natDigits n ≠ [] := by
  by_cases h : n = 0
  · subst h; decide
  · rw [natDigits, if_neg h]
    intro hcon
    have := digitsAux_length n []
    rw [hcon] at this
    simp at this
    match n, h with
    | m + 1, _ => rw [digitsLen] at this; omega

theorem isEmpty_false_of_ne_nil {l : List Char} (h : l ≠ []) : l.isEmpty = false := by
  cases l with
  | nil => exact absurd rfl h
  | cons a t => rfl

theorem sgrLoop_digits (ds : List Char) :
    ∀ (rest : List Char) (vals : Nat × Nat × Nat) (part : Nat) (hd : Bool) (n : Nat),
    (∀ ch ∈ ds, 48 ≤ ch.toNat ∧ ch.toNat ≤ 57) →
    sgrLoop (ds ++ rest) vals part hd n =
      sgrLoop rest (setPart vals part (digitsVal ds (getPart vals part))) part
        (hd || !ds.isEmpty) (n + ds.length) := by
  induction ds with
  | nil =>
    intro rest vals part hd n _
    simp [digitsVal, setPart_getPart]
  | cons ch ds ih =>
    intro rest vals part hd n hds
    have hch := hds ch (by simp)
    have hstep : sgrLoop ((ch :: ds) ++ rest) vals part hd n =
        sgrLoop (ds ++ rest)
          (setPart vals part (getPart vals part * 10 + (ch.toNat - 48)))
          part true (n + 1) := by
      show sgrLoop (ch :: (ds ++ rest)) vals part hd n = _
      rw [sgrLoop, if_pos hch]
    rw [hstep, ih _ _ _ _ _ (fun c hc => hds c (by simp [hc]))]
    rw [setPart_setPart, getPart_setPart]
    simp only [digitsVal, List.isEmpty_cons, Bool.not_false, Bool.or_true,
      Bool.true_or, List.length_cons]
    rw [show n + (ds.length + 1) = n + 1 + ds.length from by omega]

theorem sgrLoop_semi (rest : List Char) (vals : Nat × Nat × Nat) (part n : Nat)
    (hpart : part < 2) :
    sgrLoop (';' :: rest) vals part true n =
      sgrLoop rest vals (part + 1) false (n + 1) := by
  have hcond : ¬ ((true : Bool) = false ∨ 2 ≤ part) := by
    rintro (h | h)
    · exact absurd h (by decide)
    · omega
  rw [sgrLoop, if_neg (by decide : ¬ (48 ≤ ';'.toNat ∧ ';'.toNat ≤ 57)),
    if_pos (rfl : ';' = ';'), if_neg hcond]

theorem sgrLoop_final (f : Char) (rest : List Char) (vals : Nat × Nat × Nat)
    (n : Nat) (hf : f = 'M' ∨ f = 'm') :
    sgrLoop (f :: rest) vals 2 true n =
      some (vals.1, vals.2.1, vals.2.2, decide (f = 'M'), n + 1) := by
  rcases hf with h | h <;> subst h <;> rfl

theorem sgrLoop_sgrSeq (b x y : Nat) (f : Char) (hf : f = 'M' ∨ f = 'm') :
    sgrLoop (natDigits b ++ ';' :: (natDigits x ++ ';' :: (natDigits y ++ [f])))
        (0, 0, 0) 0 false 0 =
      some (b, x, y, decide (f = 'M'),
        (natDigits b).length + 1 + (natDigits x).length + 1 +
          (natDigits y).length + 1) := by
  rw [sgrLoop_digits _ _ _ _ _ _ (natDigits_all_digits b)]
  simp only [isEmpty_false_of_ne_nil (natDigits_ne_nil b), Bool.not_false,
    Bool.false_or, Nat.zero_add]
  have h0 : getPart (0, 0, 0) 0 = 0 := rfl
  rw [h0, natDigits_val]
  have hset : setPart (0, 0, 0) 0 b = (b, 0, 0) := rfl
  rw [hset, sgrLoop_semi _ _ _ _ (by omega)]
  rw [sgrLoop_digits _ _ _ _ _ _ (natDigits_all_digits x)]
  simp only [isEmpty_false_of_ne_nil (natDigits_ne_nil x), Bool.not_false,
    Bool.false_or]
  have h1 : getPart (b, 0, 0) 1 = 0 := rfl
  rw [h1, natDigits_val]
  have hset1 : setPart (b, 0, 0) 1 x = (b, x, 0) := rfl
  rw [hset1, sgrLoop_semi _ _ _ _ (by omega)]
  rw [sgrLoop_digits _ _ _ _ _ _ (natDigits_all_digits y)]
  simp only [isEmpty_false_of_ne_nil (natDigits_ne_nil y), Bool.not_false,
    Bool.false_or]
  have h2 : getPart (b, x, 0) 2 = 0 := rfl
  rw [h2, natDigits_val]
  have hset2 : setPart (b, x, 0) 2 y = (b, x, y) := rfl
  rw [hset2, sgrLoop_final _ _ _ _ hf]

theorem sgrSeq_length (b x y : Nat) (f : Char) :
    (sgrSeq b x y f).length =
      (natDigits b).length + (natDigits x).length + (natDigits y).length + 6 := by
  simp [sgrSeq]
  omega

theorem parseMouseSequenceAt_sgr_intro (pressed : List Nat) (tail : List Char) :
    parseMouseSequenceAt pressed ('\x1b' :: '[' :: '<' :: tail) =
      match sgrLoop tail (0, 0, 0) 0 false 0 with
      | some (b2, x2, y2, ip, consumed) =>
        some ((decodeSgrEvent pressed b2 x2 y2 ip).1,
              (decodeSgrEvent pressed b2 x2 y2 ip).2, consumed + 3)
      | none => none := rfl

theorem parseAllGo_succ (fuel : Nat) (p : List Nat) (s : List Char) :
    parseAllGo (fuel + 1) p s =
      match parseMouseSequenceAt p s with
      | none => ([], p, 0)
      | some (ev, p2, c) =>
        let r := parseAllGo fuel p2 (s.drop c)
        (ev :: r.1, r.2.1, c + r.2.2) := rfl

theorem parseAllGo_nil (fuel : Nat) (p : List Nat) :
    parseAllGo fuel p ([] : List Char) = ([], p, 0) := by
  cases fuel with
  | zero => rfl
  | succ n => rfl

theorem parseMouseSequenceAt_sgrSeq (pressed : List Nat) (b x y : Nat) (f : Char)
    (hf : f = 'M' ∨ f = 'm') :
    parseMouseSequenceAt pressed (sgrSeq b x y f) =
      some ((decodeSgrEvent pressed b x y (decide (f = 'M'))).1,
            (decodeSgrEvent pressed b x y (decide (f = 'M'))).2,
            (sgrSeq b x y f).length) := by
  show parseMouseSequenceAt pressed
      ('\x1b' :: '[' :: '<' ::
        (natDigits b ++ ';' :: (natDigits x ++ ';' :: (natDigits y ++ [f])))) = _
  rw [parseMouseSequenceAt_sgr_intro, sgrLoop_sgrSeq b x y f hf]
  simp only [Option.some.injEq, Prod.mk.injEq, eq_self_iff_true, true_and]
  rw [sgrSeq_length]
  omega

theorem parseAllMouseEvents_sgrSeq (pressed : List Nat) (b x y : Nat) (f : Char)
    (hf : f = 'M' ∨ f = 'm') :
    parseAllMouseEvents pressed (sgrSeq b x y f) =
      ([(decodeSgrEvent pressed b x y (decide (f = 'M'))).1],
        (decodeSgrEvent pressed b x y (decide (f = 'M'))).2,
        (sgrSeq b x y f).length) := by
  rw [parseAllMouseEvents, parseAllGo_succ,
    parseMouseSequenceAt_sgrSeq pressed b x y f hf]
  simp only [List.drop_length, parseAllGo_nil, Nat.add_zero]

theorem decodeSgrEvent_button (p : List Nat) (b wx wy : Nat) (ip : Bool) :
    (decodeSgrEvent p b wx wy ip).1.button =
      if b &&& 3 = 3 then 0 else ((b &&& 3 : Nat) : Int) := by
  simp only [decodeSgrEvent]
  split_ifs <;> rfl

theorem decodeSgrEvent_xy (p : List Nat) (b wx wy : Nat) (ip : Bool) :
    (decodeSgrEvent p b wx wy ip).1.x = (wx : Int) - 1 ∧
    (decodeSgrEvent p b wx wy ip).1.y = (wy : Int) - 1 := by
  simp only [decodeSgrEvent]
  split_ifs <;> exact ⟨rfl, rfl⟩

theorem decodeSgrEvent_modifiers (p : List Nat) (b wx wy : Nat) (ip : Bool) :
    (decodeSgrEvent p b wx wy ip).1.modifiers =
      ⟨b &&& 4 != 0, b &&& 8 != 0, b &&& 16 != 0⟩ := by
  simp only [decodeSgrEvent]
  split_ifs <;> rfl

theorem decodeSgrEvent_type_scroll (p : List Nat) (b wx wy : Nat)
    (h : b &&& 64 ≠ 0) :
    (decodeSgrEvent p b wx wy true).1.type = .scroll := by
  simp only [decodeSgrEvent]
  have hb : (b &&& 64 != 0) = true := by simp [bne_iff_ne, h]
  rw [hb]
  rfl

theorem decodeSgrEvent_type_motion (p : List Nat) (b wx wy : Nat) (ip : Bool)
    (h64 : b &&& 64 = 0 ∨ ip = false) (h32 : b &&& 32 ≠ 0) :
    (decodeSgrEvent p b wx wy ip).1.type =
      if b &&& 3 ≠ 3 ∧ 0 < p.length then .drag else .move := by
  simp only [decodeSgrEvent]
  have hsc : ((b &&& 64 != 0) && ip) = false := by
    rcases h64 with h | h
    · simp [h]
    · simp [h]
  have hm : (b &&& 32 != 0) = true := by simp [bne_iff_ne, h32]
  rw [hsc, hm]
  simp only [Bool.false_eq_true, if_false, if_true]
  by_cases h3 : b &&& 3 = 3
  · simp [h3]
  · by_cases hp : 0 < p.length
    · simp [h3, hp]
    · simp [h3, hp]

theorem decodeSgrEvent_type_updown (p : List Nat) (b wx wy : Nat) (ip : Bool)
    (h64 : b &&& 64 = 0 ∨ ip = false) (h32 : b &&& 32 = 0) :
    (decodeSgrEvent p b wx wy ip).1.type = if ip then .down else .up := by
  simp only [decodeSgrEvent]
  have hsc : ((b &&& 64 != 0) && ip) = false := by
    rcases h64 with h | h
    · simp [h]
    · simp [h]
  have hm : (b &&& 32 != 0) = false := by simp [h32]
  rw [hsc, hm]
  simp only [Bool.false_eq_true, if_false]

theorem decodeSgrEvent_release_clears (p : List Nat) (b wx wy : Nat)
    (h32 : b &&& 32 = 0) :
    (decodeSgrEvent p b wx wy false).2 = [] := by
  simp only [decodeSgrEvent]
  have hsc : ((b &&& 64 != 0) && false) = false := by simp
  have hm : (b &&& 32 != 0) = false := by simp [h32]
  rw [hsc, hm]
  simp

theorem parseMouseSequenceAt_basic (pressed : List Nat) (cb cx cy : Char)
    (t : List Char) :
    parseMouseSequenceAt pressed ('\x1b' :: '[' :: 'M' :: cb :: cx :: cy :: t) =
      some (decodeBasicEvent ((cb.toNat : Int) - 32) ((cx.toNat : Int) - 33)
              ((cy.toNat : Int) - 33), pressed, 6) := rfl

theorem jsAnd_natCast (b m : Nat) (hb : b < 4294967296) :
    jsAnd (b : Int) m = b &&& m := by
  have h1 : ((b : Int) % 4294967296).toNat = b := by omega
  rw [jsAnd, h1]

theorem decodeBasicEvent_modifiers (b : Nat) (x y : Int) (hb : b < 4294967296) :
    (decodeBasicEvent (b : Int) x y).modifiers =
      ⟨b &&& 4 != 0, b &&& 8 != 0, b &&& 16 != 0⟩ := by
  simp only [decodeBasicEvent, jsAnd_natCast _ _ hb]
  split_ifs <;> rfl

theorem decodeBasicEvent_scroll_iff (b : Nat) (x y : Int) (hb : b < 4294967296) :
    (decodeBasicEvent (b : Int) x y).type = .scroll ↔ b &&& 64 ≠ 0 := by
  simp only [decodeBasicEvent, jsAnd_natCast _ _ hb]
  by_cases h64 : b &&& 64 = 0
  · have hf : (b &&& 64 != 0) = false := by simp [h64]
    rw [hf]
    simp only [Bool.false_eq_true, if_false]
    by_cases h32 : b &&& 32 = 0
    · have hm : (b &&& 32 != 0) = false := by simp [h32]
      rw [hm]
      simp only [Bool.false_eq_true, if_false]
      constructor
      · intro hcon
        split_ifs at hcon
      · intro hcon
        exact absurd h64 hcon
    · have hm : (b &&& 32 != 0) = true := by simp [bne_iff_ne, h32]
      rw [hm]
      simp only [if_true]
      constructor
      · intro hcon
        simp at hcon
      · intro hcon
        exact absurd h64 hcon
  · have ht : (b &&& 64 != 0) = true := by simp [bne_iff_ne, h64]
    rw [ht]
    simp only [if_true]
    constructor
    · intro _
      exact h64
    · intro _
      trivial

theorem decodeBasicEvent_scroll_eq (p : List Nat) (b wx wy : Nat) (x y : Int)
    (hb : b < 4294967296) (h64 : b &&& 64 ≠ 0) :
    (decodeBasicEvent (b : Int) x y).scroll =
      (decodeSgrEvent p b wx wy true).1.scroll := by
  simp only [decodeBasicEvent, decodeSgrEvent, jsAnd_natCast _ _ hb]
  have ht : (b &&& 64 != 0) = true := by simp [bne_iff_ne, h64]
  rw [ht]
  rfl

theorem decodeBasicEvent_motion_iff (b : Nat) (x y : Int) (hb : b < 4294967296)
    (h64 : b &&& 64 = 0) :
    (decodeBasicEvent (b : Int) x y).type = .move ↔ b &&& 32 ≠ 0 := by
  simp only [decodeBasicEvent, jsAnd_natCast _ _ hb]
  have hf : (b &&& 64 != 0) = false := by simp [h64]
  rw [hf]
  simp only [Bool.false_eq_true, if_false]
  by_cases h32 : b &&& 32 = 0
  · have hm : (b &&& 32 != 0) = false := by simp [h32]
    rw [hm]
    simp only [Bool.false_eq_true, if_false]
    constructor
    · intro hcon
      split_ifs at hcon
    · intro hcon
      exact absurd h32 hcon
  · have hm : (b &&& 32 != 0) = true := by simp [bne_iff_ne, h32]
    rw [hm]
    simp only [if_true]
    exact ⟨fun _ => h32, fun _ => trivial⟩

theorem buildRanges_nil_of_no_url (content : List Char)
    (hs : List SimpleHighlight) :
    ∀ prevRev, (∀ h ∈ hs, h.group ∉ URL_SCOPES) →
    buildRanges content prevRev hs = [] := by
  induction hs with
  | nil => intro prevRev _; rfl
  | cons h rest ih =>
    intro prevRev hno
    rw [buildRanges, if_neg (hno h (by simp))]
    exact ih _ (fun h2 hh2 => hno h2 (by simp [hh2]))

theorem applyLinks_forall2 (content : List Char) (ranges : List LinkRange) :
    ∀ (chunks : List TextChunk) (pos : Nat),
    List.Forall₂ (fun c c2 => c.text.length ≤ 1 → c2 = c) chunks
      (applyLinks content ranges chunks pos) := by
  intro chunks
  induction chunks with
  | nil => intro pos; rw [applyLinks]; exact List.Forall₂.nil
  | cons c rest ih =>
    intro pos
    rw [applyLinks]
    by_cases hlen : c.text.length ≤ 1
    · rw [if_pos hlen]
      exact List.Forall₂.cons (fun _ => rfl) (ih pos)
    · rw [if_neg hlen]
      cases hidx : indexOfFrom content c.text pos with
      | none => exact List.Forall₂.cons (fun hcon => absurd hcon hlen) (ih pos)
      | some idx =>
        cases hfind : ranges.find? fun r =>
            decide (idx < r.stop) && decide (r.start < idx + c.text.length) with
        | none => exact List.Forall₂.cons (fun hcon => absurd hcon hlen) (ih _)
        | some r => exact List.Forall₂.cons (fun hcon => absurd hcon hlen) (ih _)

theorem requestRebuild_of_pending (s : DiffRebuildState)
    (h : s.pendingRebuild = true) : requestRebuild s = s := by
  rw [requestRebuild, if_pos h]

theorem requestRebuild_iterate (s : DiffRebuildState) (n : Nat)
    (hp : s.pendingRebuild = false) (hn : 1 ≤ n) :
    requestRebuild^[n] s = requestRebuild s := by
  induction n with
  | zero => omega
  | succ m ih =>
    by_cases hm : 1 ≤ m
    · rw [Function.iterate_succ_apply', ih hm]
      apply requestRebuild_of_pending
      rw [requestRebuild, if_neg (by simp [hp])]
    · have : m = 0 := by omega
      subst this
      simp

/-! ## Claim theorems -/

/-- The three-feed SGR drag scenario of claim C2: the events produced by
feeding `ESC[<0;10;5M`, then `ESC[<32;12;5M`, then `ESC[<0;12;5m` to the
parser, threading the pressed-buttons state between feeds. -/
def c2Events : List RawMouseEvent :=
  let r1 := parseAllMouseEvents [] ("\x1b[<0;10;5M".toList)
  let r2 := parseAllMouseEvents r1.2.1 ("\x1b[<32;12;5M".toList)
  let r3 := parseAllMouseEvents r2.2.1 ("\x1b[<0;12;5m".toList)
  r1.1 ++ r2.1 ++ r3.1

/-- C2, counterexample: feeding the three SGR sequences produces exactly the
three events down, drag, up — the parser emits no fourth `drag-end` event,
contradicting the claim that the `up` is followed by a drag-end. -/
theorem c2_counterexample :
    c2Events.map RawMouseEvent.type =
      [MouseEventType.down, MouseEventType.drag, MouseEventType.up] ∧
    c2Events.length = 3 ∧
    (c2Events.all fun e => e.type != MouseEventType.dragEnd) = true := by
  decide

/-- C2, amended: feeding `ESC[<0;10;5M`, then `ESC[<32;12;5M`, then
`ESC[<0;12;5m` produces, in order, exactly down(btn=0, x=9, y=4),
drag(btn=0, x=11, y=4) and up(btn=0, x=11, y=4); the parser itself emits
nothing further (no drag-end — that kind is derived downstream of the
parser). -/
theorem c2_theorem :
    c2Events =
      [{ type := .down, button := 0, x := 9, y := 4,
         modifiers := ⟨false, false, false⟩, scroll := none },
       { type := .drag, button := 0, x := 11, y := 4,
         modifiers := ⟨false, false, false⟩, scroll := none },
       { type := .up, button := 0, x := 11, y := 4,
         modifiers := ⟨false, false, false⟩, scroll := none }] := by
  decide

/-- C3, counterexample: on the one-byte input `"x"` an unparsed byte
remains, yet the parse call consumes zero bytes (it stops at the first
non-mouse sequence and leaves the data to the caller), contradicting
"whenever at least one unparsed byte remains it advances the input
position by at least one byte". -/
theorem c3_counterexample :
    ("x".toList : List Char) ≠ [] ∧
    (parseAllMouseEvents [] ("x".toList)).2.2 = 0 := by
  decide

/-- C3, amended: parsing the buffered input terminates — the fuelled loop
is independent of the fuel once it exceeds the input length — the total
advance never exceeds the input length, each produced event advances the
position by at least one byte, and an input whose head is not a valid
mouse sequence produces no event and zero advance (the remaining bytes
are routed to the caller rather than consumed). -/
theorem c3_theorem (p : List Nat) (s : List Char) (fuel : Nat)
    (hfuel : s.length < fuel) :
    parseAllGo fuel p s = parseAllMouseEvents p s ∧
    (parseAllMouseEvents p s).2.2 ≤ s.length ∧
    (parseAllMouseEvents p s).1.length ≤ (parseAllMouseEvents p s).2.2 ∧
    (parseMouseSequenceAt p s = none → parseAllMouseEvents p s = ([], p, 0)) := by
  refine ⟨?_, (parseAllGo_bounds _ _ _).1, (parseAllGo_bounds _ _ _).2, ?_⟩
  · exact parseAllGo_congr s.length s p fuel (s.length + 1) le_rfl hfuel (by omega)
  · intro hnone
    rw [parseAllMouseEvents, parseAllGo_succ, hnone]

/-- C3 witness: the amended statement instantiated at the concrete input
`"x"` with fuel 5. -/
theorem c3_witness :
    parseAllGo 5 [] ("x".toList) = parseAllMouseEvents [] ("x".toList) ∧
    (parseAllMouseEvents [] ("x".toList)).2.2 ≤ ("x".toList).length ∧
    (parseAllMouseEvents [] ("x".toList)).1.length ≤
      (parseAllMouseEvents [] ("x".toList)).2.2 ∧
    (parseMouseSequenceAt [] ("x".toList) = none →
      parseAllMouseEvents [] ("x".toList) = ([], [], 0)) :=
  c3_theorem [] ("x".toList) 5 (by decide)

/-- C4: for an SGR motion event (final byte `M`, motion bit 32 set, scroll
bit 64 clear) the produced kind is `drag` exactly when the pressed-buttons
set is non-empty and the low two bits of the button code are not 3, and
otherwise the kind is `move`. -/
theorem c4_theorem (pressed : List Nat) (b x y : Nat)
    (h64 : b &&& 64 = 0) (h32 : b &&& 32 ≠ 0) :
    ((decodeSgrEvent pressed b x y true).1.type = .drag ↔
      (pressed ≠ [] ∧ b &&& 3 ≠ 3)) ∧
    ((decodeSgrEvent pressed b x y true).1.type = .drag ∨
      (decodeSgrEvent pressed b x y true).1.type = .move) := by
  rw [decodeSgrEvent_type_motion pressed b x y true (Or.inl h64) h32]
  constructor
  · constructor
    · intro h
      split_ifs at h with hcond
      exact ⟨List.length_pos.mp hcond.2, hcond.1⟩
    · rintro ⟨hne, h3⟩
      rw [if_pos ⟨h3, List.length_pos.mpr hne⟩]
  · split_ifs
    · exact Or.inl rfl
    · exact Or.inr rfl

/-- C4 witness: with button 0 pressed, a motion event with button code 32
is classified as a drag. -/
theorem c4_witness :
    ((decodeSgrEvent [0] 32 5 6 true).1.type = .drag ↔
      (([0] : List Nat) ≠ [] ∧ 32 &&& 3 ≠ 3)) ∧
    ((decodeSgrEvent [0] 32 5 6 true).1.type = .drag ∨
      (decodeSgrEvent [0] 32 5 6 true).1.type = .move) :=
  c4_theorem [0] 32 5 6 (by decide) (by decide)

/-- C8: an SGR non-scroll, non-motion release (final byte `m`) maps to kind
`up` and clears the entire pressed-buttons set regardless of its prior
contents, so a subsequent non-scroll motion event is classified `move`,
not `drag`. -/
theorem c8_theorem (pressed : List Nat) (b x y b2 x2 y2 : Nat)
    (h64 : b &&& 64 = 0) (h32 : b &&& 32 = 0)
    (h64b : b2 &&& 64 = 0) (h32b : b2 &&& 32 ≠ 0) :
    (decodeSgrEvent pressed b x y false).1.type = .up ∧
    (decodeSgrEvent pressed b x y false).2 = [] ∧
    (decodeSgrEvent (decodeSgrEvent pressed b x y false).2
        b2 x2 y2 true).1.type = .move := by
  have hc := decodeSgrEvent_release_clears pressed b x y h32
  refine ⟨?_, hc, ?_⟩
  · rw [decodeSgrEvent_type_updown pressed b x y false (Or.inl h64) h32]
    rfl
  · rw [hc, decodeSgrEvent_type_motion [] b2 x2 y2 true (Or.inl h64b) h32b]
    simp

/-- C8 witness: releasing button 0 with buttons 0 and 2 pressed empties the
set; the following motion event is a plain move. -/
theorem c8_witness :
    (decodeSgrEvent [0, 2] 0 4 4 false).1.type = .up ∧
    (decodeSgrEvent [0, 2] 0 4 4 false).2 = [] ∧
    (decodeSgrEvent (decodeSgrEvent [0, 2] 0 4 4 false).2
        32 5 5 true).1.type = .move :=
  c8_theorem [0, 2] 0 4 4 32 5 5 (by decide) (by decide) (by decide) (by decide)

theorem decodeSgrEvent_scroll_iff (p : List Nat) (b wx wy : Nat) :
    (decodeSgrEvent p b wx wy true).1.type = .scroll ↔ b &&& 64 ≠ 0 := by
  constructor
  · intro h
    by_contra hne
    have hne2 : b &&& 64 = 0 := by omega
    by_cases h32 : b &&& 32 = 0
    · rw [decodeSgrEvent_type_updown p b wx wy true (Or.inl hne2) h32] at h
      simp at h
    · rw [decodeSgrEvent_type_motion p b wx wy true (Or.inl hne2) h32] at h
      split_ifs at h
  · exact decodeSgrEvent_type_scroll p b wx wy

/-- C1 counterexample: the SGR sequence `ESC [ < 35 ; 2 ; 2 m` (button bits
3, motion bit set, final byte `m`) produces exactly one event with button
0 — not the low two bits of b, which are 3 — and kind `move` — not a
release kind — contradicting the claim's button and press/release
clauses. -/
theorem c1_counterexample :
    (parseAllMouseEvents [] ("\x1b[<35;2;2m".toList)).1.map RawMouseEvent.button
      = [0] ∧
    (parseAllMouseEvents [] ("\x1b[<35;2;2m".toList)).1.map RawMouseEvent.type
      = [MouseEventType.move] ∧
    ((35 &&& 3 : Nat) : Int) ≠ 0 ∧
    MouseEventType.move ≠ MouseEventType.up := by
  decide

/-- C1, amended: every SGR sequence `ESC [ < b ; x ; y F` with F ∈ {M, m}
produces exactly one event with 0-based coordinates `x-1, y-1`, modifiers
taken from bits 4, 8, 16 of `b`, button equal to the low two bits of `b`
except that the value 3 is reported as button 0; for F = `M` the kind is a
press/motion/scroll kind (scroll when bit 64, move/drag when bit 32, else
down), and for F = `m` the kind is `up` when the motion bit is clear but a
motion kind (move/drag) when bit 32 is set. -/
theorem c1_theorem (pressed : List Nat) (b x y : Nat) (f : Char)
    (hf : f = 'M' ∨ f = 'm') :
    ∃ e : RawMouseEvent, ∃ pressed2 : List Nat,
      parseAllMouseEvents pressed (sgrSeq b x y f) =
        ([e], pressed2, (sgrSeq b x y f).length) ∧
      e.x = (x : Int) - 1 ∧
      e.y = (y : Int) - 1 ∧
      e.modifiers = ⟨b &&& 4 != 0, b &&& 8 != 0, b &&& 16 != 0⟩ ∧
      e.button = (if b &&& 3 = 3 then 0 else ((b &&& 3 : Nat) : Int)) ∧
      (f = 'M' →
        (b &&& 64 ≠ 0 → e.type = .scroll) ∧
        (b &&& 64 = 0 → b &&& 32 ≠ 0 → (e.type = .move ∨ e.type = .drag)) ∧
        (b &&& 64 = 0 → b &&& 32 = 0 → e.type = .down)) ∧
      (f = 'm' →
        (b &&& 32 ≠ 0 → (e.type = .move ∨ e.type = .drag)) ∧
        (b &&& 32 = 0 → e.type = .up)) := by
  refine ⟨(decodeSgrEvent pressed b x y (decide (f = 'M'))).1,
          (decodeSgrEvent pressed b x y (decide (f = 'M'))).2,
          parseAllMouseEvents_sgrSeq pressed b x y f hf,
          (decodeSgrEvent_xy pressed b x y (decide (f = 'M'))).1,
          (decodeSgrEvent_xy pressed b x y (decide (f = 'M'))).2,
          decodeSgrEvent_modifiers pressed b x y (decide (f = 'M')),
          decodeSgrEvent_button pressed b x y (decide (f = 'M')), ?_, ?_⟩
  · intro hM
    subst hM
    have hd : (decide (('M' : Char) = 'M')) = true := by decide
    rw [hd]
    refine ⟨decodeSgrEvent_type_scroll pressed b x y, ?_, ?_⟩
    · intro h64 h32
      rw [decodeSgrEvent_type_motion pressed b x y true (Or.inl h64) h32]
      split_ifs
      · exact Or.inr rfl
      · exact Or.inl rfl
    · intro h64 h32
      rw [decodeSgrEvent_type_updown pressed b x y true (Or.inl h64) h32]
      rfl
  · intro hm
    subst hm
    have hd : (decide (('m' : Char) = 'M')) = false := by decide
    rw [hd]
    refine ⟨?_, ?_⟩
    · intro h32
      rw [decodeSgrEvent_type_motion pressed b x y false (Or.inr rfl) h32]
      split_ifs
      · exact Or.inr rfl
      · exact Or.inl rfl
    · intro h32
      rw [decodeSgrEvent_type_updown pressed b x y false (Or.inr rfl) h32]
      rfl

/-- C1 witness: the amended statement instantiated at `b = 35, x = 2,
y = 2, F = 'm'` with no buttons pressed. -/
theorem c1_witness :
    ∃ e : RawMouseEvent, ∃ pressed2 : List Nat,
      parseAllMouseEvents [] (sgrSeq 35 2 2 'm') =
        ([e], pressed2, (sgrSeq 35 2 2 'm').length) ∧
      e.x = ((2 : Nat) : Int) - 1 ∧
      e.y = ((2 : Nat) : Int) - 1 ∧
      e.modifiers = ⟨35 &&& 4 != 0, 35 &&& 8 != 0, 35 &&& 16 != 0⟩ ∧
      e.button = (if 35 &&& 3 = 3 then 0 else ((35 &&& 3 : Nat) : Int)) ∧
      ('m' = 'M' →
        (35 &&& 64 ≠ 0 → e.type = .scroll) ∧
        (35 &&& 64 = 0 → 35 &&& 32 ≠ 0 → (e.type = .move ∨ e.type = .drag)) ∧
        (35 &&& 64 = 0 → 35 &&& 32 = 0 → e.type = .down)) ∧
      ('m' = 'm' →
        (35 &&& 32 ≠ 0 → (e.type = .move ∨ e.type = .drag)) ∧
        (35 &&& 32 = 0 → e.type = .up)) :=
  c1_theorem [] 35 2 2 'm' (Or.inr rfl)

theorem processFocusStream_count (ts : List FocusToken) :
    (processFocusStream ts).count PresenterAction.restoreModes =
      ts.count FocusToken.focusIn := by
  induction ts with
  | nil => rfl
  | cons t rest ih =>
    cases t <;>
      simp [processFocusStream, processFocusToken, List.count_cons,
        List.count_append, ih]

/-- C5 (spec-modelled presenter): feeding focus-out then focus-in
re-asserts the terminal modes exactly once, triggered by the focus-in
alone (a lone focus-out triggers none), the re-assertion precedes the
`focus` event in the output order, and over any token stream the number of
re-assertions equals the number of focus-in tokens. -/
theorem c5_theorem :
    processFocusStream [.focusOut, .focusIn] =
      [.blurEvent, .restoreModes, .focusEvent] ∧
    (processFocusStream [.focusOut, .focusIn]).count
      PresenterAction.restoreModes = 1 ∧
    (processFocusStream [.focusOut]).count PresenterAction.restoreModes = 0 ∧
    (processFocusStream [.focusOut, .focusIn]).indexOf
        PresenterAction.restoreModes <
      (processFocusStream [.focusOut, .focusIn]).indexOf
        PresenterAction.focusEvent ∧
    ∀ ts : List FocusToken,
      (processFocusStream ts).count PresenterAction.restoreModes =
        ts.count FocusToken.focusIn := by
  refine ⟨by decide, by decide, by decide, by decide, processFocusStream_count⟩

/-- C6: an X10 sequence `ESC [ M B X Y` with all six bytes available
consumes exactly 6 characters and produces one event decoded from
`code(B) - 32` and 0-based coordinates `code(X) - 33`, `code(Y) - 33`,
leaving the pressed set untouched; and for every button code the X10
decoder extracts the shift/alt/ctrl modifier bits, the scroll bit (with
identical scroll payload) and the motion bit exactly as the SGR decoder
does. -/
theorem c6_theorem :
    (∀ (pressed : List Nat) (cb cx cy : Char) (t : List Char),
      parseMouseSequenceAt pressed ('\x1b' :: '[' :: 'M' :: cb :: cx :: cy :: t) =
        some (decodeBasicEvent ((cb.toNat : Int) - 32) ((cx.toNat : Int) - 33)
                ((cy.toNat : Int) - 33), pressed, 6)) ∧
    (∀ (p : List Nat) (b wx wy : Nat) (x y : Int), b < 4294967296 →
      (decodeBasicEvent (b : Int) x y).modifiers =
        (decodeSgrEvent p b wx wy true).1.modifiers ∧
      ((decodeBasicEvent (b : Int) x y).type = .scroll ↔
        (decodeSgrEvent p b wx wy true).1.type = .scroll) ∧
      (b &&& 64 ≠ 0 →
        (decodeBasicEvent (b : Int) x y).scroll =
          (decodeSgrEvent p b wx wy true).1.scroll) ∧
      (b &&& 64 = 0 →
        ((decodeBasicEvent (b : Int) x y).type = .move ↔ b &&& 32 ≠ 0))) := by
  constructor
  · intro pressed cb cx cy t
    exact parseMouseSequenceAt_basic pressed cb cx cy t
  · intro p b wx wy x y hb
    refine ⟨?_, ?_, decodeBasicEvent_scroll_eq p b wx wy x y hb,
            decodeBasicEvent_motion_iff b x y hb⟩
    · rw [decodeBasicEvent_modifiers b x y hb,
        decodeSgrEvent_modifiers p b wx wy true]
    · rw [decodeBasicEvent_scroll_iff b x y hb,
        decodeSgrEvent_scroll_iff p b wx wy]

/-- C6 witness: the statement instantiated at a concrete X10 sequence and
at button code 32. -/
theorem c6_witness :
    parseMouseSequenceAt [] ('\x1b' :: '[' :: 'M' :: 'a' :: 'b' :: 'c' :: []) =
      some (decodeBasicEvent (('a'.toNat : Int) - 32) (('b'.toNat : Int) - 33)
              (('c'.toNat : Int) - 33), [], 6) ∧
    ((decodeBasicEvent ((32 : Nat) : Int) 0 0).modifiers =
        (decodeSgrEvent [] 32 1 1 true).1.modifiers ∧
      ((decodeBasicEvent ((32 : Nat) : Int) 0 0).type = .scroll ↔
        (decodeSgrEvent [] 32 1 1 true).1.type = .scroll) ∧
      (32 &&& 64 ≠ 0 →
        (decodeBasicEvent ((32 : Nat) : Int) 0 0).scroll =
          (decodeSgrEvent [] 32 1 1 true).1.scroll) ∧
      (32 &&& 64 = 0 →
        ((decodeBasicEvent ((32 : Nat) : Int) 0 0).type = .move ↔
          32 &&& 32 ≠ 0))) :=
  ⟨c6_theorem.1 [] 'a' 'b' 'c' [], c6_theorem.2 [] 32 1 1 0 0 (by decide)⟩

/-- C7: rebuild coalescing of the diff renderable — from a clean state, any
number `n ≥ 1` of rebuild requests issued before the queued microtask runs
queues exactly one task and performs no rebuild yet; running the task then
performs exactly one rebuild and resets the state, so at most one rebuild
happens per batch of requests. -/
theorem c7_theorem (s0 : DiffRebuildState) (n : Nat)
    (hp : s0.pendingRebuild = false) (hd : s0.isDestroyed = false)
    (hq : s0.queuedTasks = 0) (hn : 1 ≤ n) :
    (requestRebuild^[n] s0).queuedTasks = 1 ∧
    (requestRebuild^[n] s0).rebuilds = s0.rebuilds ∧
    (runRebuildTask (requestRebuild^[n] s0)).rebuilds = s0.rebuilds + 1 ∧
    (runRebuildTask (requestRebuild^[n] s0)).queuedTasks = 0 ∧
    (runRebuildTask (requestRebuild^[n] s0)).pendingRebuild = false := by
  rw [requestRebuild_iterate s0 n hp hn]
  rw [requestRebuild, if_neg (by simp [hp])]
  simp [runRebuildTask, hq, hd]

/-- C7 witness: four rapid rebuild requests from a clean state queue one
task and yield exactly one rebuild. -/
theorem c7_witness :
    (requestRebuild^[4] ⟨false, false, 0, 0, 0⟩).queuedTasks = 1 ∧
    (requestRebuild^[4] ⟨false, false, 0, 0, 0⟩).rebuilds =
      (⟨false, false, 0, 0, 0⟩ : DiffRebuildState).rebuilds ∧
    (runRebuildTask (requestRebuild^[4] ⟨false, false, 0, 0, 0⟩)).rebuilds =
      (⟨false, false, 0, 0, 0⟩ : DiffRebuildState).rebuilds + 1 ∧
    (runRebuildTask (requestRebuild^[4] ⟨false, false, 0, 0, 0⟩)).queuedTasks = 0 ∧
    (runRebuildTask
        (requestRebuild^[4] ⟨false, false, 0, 0, 0⟩)).pendingRebuild = false :=
  c7_theorem ⟨false, false, 0, 0, 0⟩ 4 rfl rfl rfl (by decide)

/-- C9: when no highlight carries a URL scope, `detectLinks` returns its
chunks unchanged; and — for arbitrary inputs — chunks whose text length is
at most 1 pass through `detectLinks` unmodified (they are never assigned a
link). -/
theorem c9_theorem :
    (∀ (chunks : List TextChunk) (content : List Char)
        (highlights : List SimpleHighlight),
      (∀ h ∈ highlights, h.group ∉ URL_SCOPES) →
      detectLinks chunks content highlights = chunks) ∧
    (∀ (chunks : List TextChunk) (content : List Char)
        (highlights : List SimpleHighlight),
      List.Forall₂ (fun c c2 => c.text.length ≤ 1 → c2 = c) chunks
        (detectLinks chunks content highlights)) := by
  constructor
  · intro chunks content highlights hno
    simp only [detectLinks]
    rw [buildRanges_nil_of_no_url content highlights [] hno]
    simp
  · intro chunks content highlights
    simp only [detectLinks]
    by_cases hr : (buildRanges content [] highlights).length = 0
    · rw [if_pos hr]
      exact List.forall₂_same.mpr (fun c _ => fun _ => rfl)
    · rw [if_neg hr]
      exact applyLinks_forall2 content _ chunks 0

/-- C9 witness: the no-URL-scope part at a `keyword` highlight, and the
short-chunk part at a one-character chunk overlapping a URL highlight. -/
theorem c9_witness :
    detectLinks [⟨['a', 'b'], none⟩] ['a', 'b'] [⟨0, 2, "keyword"⟩] =
      [⟨['a', 'b'], none⟩] ∧
    List.Forall₂ (fun c c2 => c.text.length ≤ 1 → c2 = c) [⟨['a'], none⟩]
      (detectLinks [⟨['a'], none⟩] ['a'] [⟨0, 1, "markup.link.url"⟩]) :=
  ⟨c9_theorem.1 _ _ _ (by decide), c9_theorem.2 _ _ _⟩

/-- C10: the highlight-failure fallback — when the failed request's
snapshot is still current and the renderable is alive, the state falls
back to the plain captured content, becomes renderable, clears the
highlighting and dirty flags and requests one render; a superseded
snapshot leaves the state (text buffer included) untouched. -/
theorem c10_theorem (s : CodeHighlightState) (sid : Nat) (content : List Char) :
    (sid = s.highlightSnapshotId → s.isDestroyed = false →
      startHighlightOnError s sid content =
        { s with textBuffer := .plain content,
                 shouldRenderTextBuffer := true,
                 isHighlighting := false,
                 highlightsDirty := false,
                 renderRequests := s.renderRequests + 1 }) ∧
    (sid ≠ s.highlightSnapshotId → startHighlightOnError s sid content = s) := by
  constructor
  · intro heq hdes
    rw [startHighlightOnError, if_neg (by simp [heq]), if_neg (by simp [hdes])]
  · intro hne
    rw [startHighlightOnError, if_pos hne]

/-- C10 witness: a current snapshot falls back to plain text with flags
cleared and one render request; a superseded snapshot changes nothing. -/
theorem c10_witness :
    startHighlightOnError ⟨7, .styled 3, false, true, true, 5, false⟩ 7
        ['h', 'i'] =
      ⟨7, .plain ['h', 'i'], true, false, false, 6, false⟩ ∧
    startHighlightOnError ⟨7, .styled 3, false, true, true, 5, false⟩ 9
        ['h', 'i'] =
      ⟨7, .styled 3, false, true, true, 5, false⟩ :=
  ⟨(c10_theorem ⟨7, .styled 3, false, true, true, 5, false⟩ 7 ['h', 'i']).1
      rfl rfl,
   (c10_theorem ⟨7, .styled 3, false, true, true, 5, false⟩ 9 ['h', 'i']).2
      (by decide)⟩
